import Mathlib

/-!
Verification of the context data model of `snorkel/models/context.py`:
the stable-id codec (`split_stable_id` / `construct_stable_id`), the
`TemporarySpan` candidate operations (value equality, hashing, containment,
slicing, char-to-word mapping, attribute spans), and the get-or-insert
materialization protocol (`TemporaryContext.load_id_or_insert`).

Python strings are embedded as `List Char`; Python string operations
(`str.split`, `int(...)`, `"%s" % n`, slicing) are embedded as executable
functions below.  Exceptions are embedded as `Option`/`none` results.
-/

/-- Character data of a string literal (Python strings are `List Char` here). -/
def strL (s : String) : List Char := s.data

/- ### Python string splitting primitives -/

/-- Holds when the string contains no `':'` character at all. -/
def noColon (l : List Char) : Bool := l.all (fun c => !(c == ':'))

/-- Holds when the string contains no two adjacent colons, i.e. no `"::"` infix. -/
def noDD : List Char → Bool
  | x :: y :: rest => !(x == ':' && y == ':') && noDD (y :: rest)
  | _ => true

/-- Python `s.split('::')`: leftmost, non-overlapping split on the two-character
separator `"::"`, keeping empty pieces (so the result is always non-empty). -/
def pySplitDC : List Char → List (List Char)
  | [] => [[]]
  | [c] => [[c]]
  | c :: d :: rest =>
    if c == ':' && d == ':' then
      [] :: pySplitDC rest
    else
      match pySplitDC (d :: rest) with
      | [] => [[c]]
      | p :: ps => (c :: p) :: ps

/-- Python `s.split(sep)` for a single-character separator. -/
def pySplitC (sep : Char) : List Char → List (List Char)
  | [] => [[]]
  | c :: rest =>
    if c == sep then
      [] :: pySplitC sep rest
    else
      match pySplitC sep rest with
      | [] => [[c]]
      | p :: ps => (c :: p) :: ps

/- ### Decimal integers: Python `"%s" % n` and `int(s)` -/

/-- The decimal digit character for `d < 10`. -/
def digitChar (d : Nat) : Char := Char.ofNat (48 + d)

/-- Fuel-driven most-significant-first decimal digit writer (the fuel is always
sufficient at the call site in `natToDigits`). -/
def natToDigitsAux : Nat → Nat → List Char → List Char
  | 0, _, acc => acc
  | fuel + 1, n, acc =>
    if n < 10 then digitChar n :: acc
    else natToDigitsAux fuel (n / 10) (digitChar (n % 10) :: acc)

/-- Decimal digit string of a natural number (no sign, no leading zeros). -/
def natToDigits (n : Nat) : List Char := natToDigitsAux (n + 1) n []

/-- Python `"%s" % n` for an integer `n`: optional `'-'` sign then decimal digits. -/
def intStr (n : Int) : List Char :=
  if n < 0 then '-' :: natToDigits n.natAbs else natToDigits n.toNat

/-- Decimal digit character test (`'0'` through `'9'`). -/
def isDigitChar (c : Char) : Bool := 48 ≤ c.toNat && c.toNat ≤ 57

/-- All characters are decimal digits. -/
def isDigits (l : List Char) : Bool := l.all isDigitChar

/-- Value of a digit string, most significant first. -/
def digitsVal (l : List Char) : Nat := l.foldl (fun a c => a * 10 + (c.toNat - 48)) 0

/-- Python `int(s)`: an optional single leading sign followed by one or more
decimal digits; any other shape raises `ValueError`, embedded as `none`.
(Python's `int` also tolerates surrounding whitespace; no caller here ever
passes whitespace, so that tolerance is immaterial and not modelled.) -/
def parsePyInt : List Char → Option Int
  | [] => none
  | c :: rest =>
    if c = '-' then
      if rest ≠ [] ∧ isDigits rest = true then some (-(digitsVal rest : Int)) else none
    else if c = '+' then
      if rest ≠ [] ∧ isDigits rest = true then some ((digitsVal rest : Int)) else none
    else if isDigits (c :: rest) = true then some ((digitsVal (c :: rest) : Int)) else none

/- ### The stable-id codec -/

/-- Embedding of `split_stable_id`: split on `"::"` expecting exactly two pieces,
split the remainder on `':'` expecting exactly three fields, parse the last two
as integers; every failure (including the `ValueError` raised by `int`) is `none`. -/
def split_stable_id (stable_id : List Char) : Option (List Char × List Char × Int × Int) :=
  match pySplitDC stable_id with
  | [a, rest] =>
    match pySplitC ':' rest with
    | [k, d1, d2] =>
      match parsePyInt d1, parsePyInt d2 with
      | some n1, some n2 => some (a, k, n1, n2)
      | _, _ => none
    | _ => none
  | _ => none

/-- Embedding of `construct_stable_id`.  The only field of `parent_context` the
source reads is `parent_context.stable_id`, passed here directly.  The result is
`"%s::%s:%s:%s" % (parent_id, polymorphic_type, start, end)`; a malformed parent
stable id propagates the `ValueError` of `split_stable_id`, embedded as `none`. -/
def construct_stable_id (parent_stable_id : List Char) (polymorphic_type : List Char)
    (relative_char_offset_start relative_char_offset_end : Int) : Option (List Char) :=
  match split_stable_id parent_stable_id with
  | none => none
  | some (parent_id, _, parent_char_start, _) =>
    some (parent_id ++ (':' :: ':' ::
      (polymorphic_type ++ (':' ::
        (intStr (parent_char_start + relative_char_offset_start) ++ (':' ::
          intStr (parent_char_start + relative_char_offset_end)))))))

/- ### The parent Context of a span and the TemporarySpan candidate -/

/-- Sentence/Phrase-like parent `Context` of a span, carrying the attribute
contract of the annotation pipeline (`text`, parallel token arrays).  `oid` is
the CPython object identity token: the source compares parents with `==`, which
for these ORM objects is default identity comparison, and hashes them with the
default identity-derived `hash`; structural equality of this record (which
includes `oid`) plays that role here. -/
structure Parent where
  oid : Nat
  text : List Char
  words : List (List Char)
  char_offsets : List Int
  lemmas : List (List Char)
  poses : List (List Char)
deriving DecidableEq

/-- Embedding of `TemporarySpan`: `id` is `None` until materialization
(`TemporaryContext.__init__`), `char_start`/`char_end` are inclusive and
relative to the parent's text, `meta` is an opaque blob (`None` by default). -/
structure TemporarySpan where
  id : Option Nat
  parent : Parent
  char_start : Int
  char_end : Int
  meta : Option Int
deriving DecidableEq

/-- Embedding of `TemporarySpan.__init__(parent, char_start, char_end, meta=None)`. -/
def TemporarySpan.init (parent : Parent) (char_start char_end : Int)
    (meta : Option Int := none) : TemporarySpan :=
  { id := none, parent := parent, char_start := char_start, char_end := char_end, meta := meta }

/-- A Python value compared against a `TemporarySpan`: either another span, or a
foreign object lacking the `parent`/`char_start`/`char_end` attributes. -/
inductive PyObj where
  | span (s : TemporarySpan)
  | foreign (o : Nat)

/-- Attribute access on the compared object: reading `.parent`, `.char_start`,
`.char_end` succeeds on a span and raises `AttributeError` (`none`) otherwise. -/
def getSpanAttrs : PyObj → Option (Parent × Int × Int)
  | .span t => some (t.parent, t.char_start, t.char_end)
  | .foreign _ => none

/-- Embedding of `TemporarySpan.__eq__`: compare `(parent, char_start, char_end)`;
an `AttributeError` from the attribute reads is caught and yields `False`. -/
def TemporarySpan.pyEq (s : TemporarySpan) (o : PyObj) : Bool :=
  match getSpanAttrs o with
  | some (p, cs, ce) =>
    decide (s.parent = p) && decide (s.char_start = cs) && decide (s.char_end = ce)
  | none => false

/-- Embedding of `TemporarySpan.__ne__`: disjunction of field inequalities; an
`AttributeError` from the attribute reads is caught and yields `True`. -/
def TemporarySpan.pyNe (s : TemporarySpan) (o : PyObj) : Bool :=
  match getSpanAttrs o with
  | some (p, cs, ce) =>
    decide (s.parent ≠ p) || decide (s.char_start ≠ cs) || decide (s.char_end ≠ ce)
  | none => true

/-- Default identity-derived hash of the parent object, modelled from its
identity token. -/
def pyHashParent (p : Parent) : Int := p.oid

/-- Embedding of `TemporarySpan.__hash__`:
`hash(parent) + hash(char_start) + hash(char_end)` (a small Python int hashes
to itself). -/
def TemporarySpan.pyHash (s : TemporarySpan) : Int :=
  pyHashParent s.parent + s.char_start + s.char_end

/-- Embedding of `TemporarySpan.__contains__`: coordinate containment only, no
parent check. -/
def TemporarySpan.containsSpan (s other_span : TemporarySpan) : Bool :=
  decide (other_span.char_start ≥ s.char_start) && decide (other_span.char_end ≤ s.char_end)

/- ### char-to-word mapping -/

/-- The loop of `char_to_word_index`: `iAcc` is the last value of the Python
loop variable `i` (`None` before the first iteration), `idx` the index
`enumerate` assigns to the head of the remaining list. -/
def ctwiLoop (ci : Int) : List Int → Option Int → Int → Option Int
  | [], iAcc, _ => iAcc
  | co :: rest, _, idx =>
    if ci = co then some idx
    else if ci < co then some (idx - 1)
    else ctwiLoop ci rest (some idx) (idx + 1)

/-- Embedding of `TemporarySpan.char_to_word_index`: linear scan of the parent's
`char_offsets`; returns `none` exactly when the offsets array is empty (the
Python function returns its initial `i = None` there). -/
def TemporarySpan.char_to_word_index (s : TemporarySpan) (ci : Int) : Option Int :=
  ctwiLoop ci s.parent.char_offsets none 0

/-- Embedding of `TemporarySpan.get_word_start`. -/
def TemporarySpan.get_word_start (s : TemporarySpan) : Option Int :=
  s.char_to_word_index s.char_start

/-- Embedding of `TemporarySpan.get_word_end`. -/
def TemporarySpan.get_word_end (s : TemporarySpan) : Option Int :=
  s.char_to_word_index s.char_end

/- ### Python slicing -/

/-- A Python `slice` object with integer-or-`None` bounds (no step). -/
structure PySlice where
  start : Option Int
  stop : Option Int

/-- Resolution of one slice bound against a sequence of length `n`: `None`
defaults to `dflt`, a negative bound counts from the end, and both ends are
clamped into `[0, n]`. -/
def pySliceBound (n : Nat) (dflt : Nat) : Option Int → Nat
  | none => dflt
  | some i => if i < 0 then (i + n).toNat else min i.toNat n

/-- Python sequence slicing `l[start:stop]` (strings and lists alike). -/
def pySliceList {α : Type} (l : List α) (start stop : Option Int) : List α :=
  let lo := pySliceBound l.length 0 start
  let hi := pySliceBound l.length l.length stop
  (l.drop lo).take (hi - lo)

/-- Embedding of `TemporarySpan.__getitem__` on a slice key: bounds are
char-relative to the candidate range; `_get_instance` builds a fresh span of
the same concrete kind via `__init__(parent, char_start, char_end)`, so the new
span has `id = None` and `meta = None`. -/
def TemporarySpan.getitem (s : TemporarySpan) (key : PySlice) : TemporarySpan :=
  let char_start :=
    match key.start with
    | none => s.char_start
    | some j => s.char_start + j
  let char_end :=
    match key.stop with
    | none => s.char_end
    | some k => if 0 ≤ k then s.char_start + k - 1 else s.char_end + k
  TemporarySpan.init s.parent char_start char_end

/- ### Attribute spans -/

/-- Embedding of `parent.__getattribute__(a)` for the string-valued parallel
token arrays a span reads; an unknown attribute raises `AttributeError` (`none`). -/
def parentAttr (p : Parent) (a : String) : Option (List (List Char)) :=
  if a = "words" then some p.words
  else if a = "lemmas" then some p.lemmas
  else if a = "poses" then some p.poses
  else none

/-- Embedding of `TemporarySpan.get_attrib_tokens`: the token slice
`parent.a[get_word_start() : get_word_end() + 1]`.  When `char_offsets` is
empty both word indices are `None` and `get_word_end() + 1` raises `TypeError`,
embedded as `none` (both indices come from the same offsets array, so they are
`None` together). -/
def TemporarySpan.get_attrib_tokens (s : TemporarySpan) (a : String) :
    Option (List (List Char)) :=
  match parentAttr s.parent a with
  | none => none
  | some lst =>
    match s.get_word_start, s.get_word_end with
    | some ws, some we => some (pySliceList lst (some ws) (some (we + 1)))
    | _, _ => none

/-- Embedding of `TemporarySpan.get_attrib_span`: the `words` attribute returns
the verbatim text slice `parent.text[char_start : char_end + 1]`; any other
attribute joins its token slice with the separator (Python `sep.join`). -/
def TemporarySpan.get_attrib_span (s : TemporarySpan) (a : String) (sep : List Char) :
    Option (List Char) :=
  if a = "words" then
    some (pySliceList s.parent.text (some s.char_start) (some (s.char_end + 1)))
  else
    (s.get_attrib_tokens a).map (fun toks => List.intercalate sep toks)

/- ### The materialization protocol -/

/-- A row of the base `context` table: surrogate id, polymorphic type tag,
stable id (unique in the store). -/
structure ContextRow where
  id : Nat
  type : String
  stable_id : List Char
deriving DecidableEq

/-- A `TemporaryContext` candidate as seen by `load_id_or_insert`: `id` is the
candidate's surrogate-id field, and the remaining fields record the values the
abstract methods `get_stable_id()`, `_get_table_name()` and `_get_insert_args()`
return for it. -/
structure TempCtx where
  id : Option Nat
  stable_id : List Char
  table_name : String
  insert_args : List (String × Int)
deriving DecidableEq

/-- The store visible to one materialization pass: the base `context` table in
insertion order, the kind-specific subtype rows `(table, id, args)`, and the
autoincrement source for surrogate primary keys. -/
structure DBState where
  contexts : List ContextRow
  sub_rows : List (String × Nat × List (String × Int))
  next_id : Nat
deriving DecidableEq

/-- Embedding of `SELECT context.id WHERE context.stable_id = sid` followed by
`.first()`. -/
def lookupStableId (db : DBState) (sid : List Char) : Option Nat :=
  (db.contexts.find? (fun r => r.stable_id == sid)).map (fun r => r.id)

/-- Number of persisted base rows carrying a given stable id. -/
def countStableId (db : DBState) (sid : List Char) : Nat :=
  (db.contexts.filter (fun r => r.stable_id == sid)).length

/-- Concrete example parent used by witnesses: a sentence whose tokens carry
internal punctuation, with `char_offsets = [0, 4, 10]` as in the spec's
token-mapping example. -/
def Pex : Parent :=
  { oid := 1
    text := strL "Mr. Smith ran."
    words := [strL "Mr.", strL "Smith", strL "ran."]
    char_offsets := [0, 4, 10]
    lemmas := [strL "mr.", strL "smith", strL "run."]
    poses := [strL "NNP", strL "NNP", strL "VBD"] }

/-- Embedding of `TemporaryContext.load_id_or_insert`: no-op when the candidate
already has an id; otherwise look the stable id up and adopt the existing
surrogate id, or insert the base row (obtaining a fresh primary key) followed by
the kind-specific subtype row keyed by that same id. -/
def load_id_or_insert (c : TempCtx) (db : DBState) : TempCtx × DBState :=
  match c.id with
  | some _ => (c, db)
  | none =>
    match lookupStableId db c.stable_id with
    | some i => ({ c with id := some i }, db)
    | none =>
      let newId := db.next_id
      ({ c with id := some newId },
       { contexts := db.contexts ++ [{ id := newId, type := c.table_name, stable_id := c.stable_id }],
         sub_rows := db.sub_rows ++ [(c.table_name, newId, c.insert_args)],
         next_id := newId + 1 })

/- ### Claim C5: slicing semantics -/

/-- C5: for every TemporarySpan and every slice, `__getitem__` returns a new
span with the same parent, where a missing lower bound yields `char_start`, a
present lower bound `j` yields `char_start + j`, a missing upper bound yields
`char_end`, a non-negative upper bound `k` yields `char_start + k - 1`, and a
negative upper bound `k` yields `char_end + k`. -/
theorem C5_getitem_slicing (s : TemporarySpan) (key : PySlice) :
    (s.getitem key).parent = s.parent ∧
    (s.getitem key).char_start =
      (match key.start with
       | none => s.char_start
       | some j => s.char_start + j) ∧
    (s.getitem key).char_end =
      (match key.stop with
       | none => s.char_end
       | some k => if 0 ≤ k then s.char_start + k - 1 else s.char_end + k) :=
  ⟨rfl, rfl, rfl⟩

/- ### Claim C10: slicing does not carry meta -/

/-- C10: the span returned by `__getitem__` always has `meta = none` (and a
fresh `id = none`): only the parent and the character bounds are propagated to
the sliced copy, even when the original span's `meta` is not `none`. -/
theorem C10_getitem_meta_not_carried (s : TemporarySpan) (key : PySlice) :
    (s.getitem key).meta = none ∧ (s.getitem key).id = none ∧
    (s.getitem key).parent = s.parent :=
  ⟨rfl, rfl, rfl⟩

/- ### Claim C6: value equality and hash congruence -/

/-- C6: two TemporarySpans are `==`-equal iff their parents and both character
bounds agree, independent of the surrogate `id` field; equal spans have equal
hashes; and for a fixed parent `P`, `(P,0,4) == (P,0,4)` while
`(P,0,4) != (P,0,5)`. -/
theorem C6_value_equality (a b : TemporarySpan) :
    (a.pyEq (.span b) = true ↔
      a.parent = b.parent ∧ a.char_start = b.char_start ∧ a.char_end = b.char_end) ∧
    (a.pyEq (.span b) = true → a.pyHash = b.pyHash) ∧
    (∀ i j : Option Nat,
      ({ a with id := i } : TemporarySpan).pyEq (.span { b with id := j }) = a.pyEq (.span b)) ∧
    (∀ P : Parent, (TemporarySpan.init P 0 4).pyEq (.span (TemporarySpan.init P 0 4)) = true) ∧
    (∀ P : Parent, (TemporarySpan.init P 0 4).pyEq (.span (TemporarySpan.init P 0 5)) = false) := by
  refine ⟨?_, ?_, fun i j => rfl, fun P => ?_, fun P => ?_⟩
  · simp [TemporarySpan.pyEq, getSpanAttrs, and_assoc]
  · intro h
    simp [TemporarySpan.pyEq, getSpanAttrs, and_assoc] at h
    simp [TemporarySpan.pyHash, pyHashParent, h.1, h.2.1, h.2.2]
  · simp [TemporarySpan.pyEq, getSpanAttrs, TemporarySpan.init]
  · simp [TemporarySpan.pyEq, getSpanAttrs, TemporarySpan.init]

/-- Witness for C6: hash congruence discharged at a concrete pair of equal spans. -/
theorem C6_witness :
    (TemporarySpan.init Pex 0 4).pyEq (.span (TemporarySpan.init Pex 0 4)) = true ∧
    (TemporarySpan.init Pex 0 4).pyHash = (TemporarySpan.init Pex 0 4).pyHash := by
  have h := C6_value_equality (TemporarySpan.init Pex 0 4) (TemporarySpan.init Pex 0 4)
  exact ⟨h.2.2.2.1 Pex, h.2.1 (h.2.2.2.1 Pex)⟩

/- ### Claim C7: containment -/

/-- C7: `contains(other)` holds iff `other.char_start >= self.char_start` and
`other.char_end <= self.char_end`; the parents of the two spans are never
inspected; and `(P,2,5)` contains `(P,3,4)` but not `(P,1,4)`. -/
theorem C7_containment (s o : TemporarySpan) :
    (s.containsSpan o = true ↔ o.char_start ≥ s.char_start ∧ o.char_end ≤ s.char_end) ∧
    (∀ p' : Parent, s.containsSpan { o with parent := p' } = s.containsSpan o) ∧
    (∀ P P' : Parent,
      (TemporarySpan.init P 2 5).containsSpan (TemporarySpan.init P' 3 4) = true) ∧
    (∀ P P' : Parent,
      (TemporarySpan.init P 2 5).containsSpan (TemporarySpan.init P' 1 4) = false) := by
  refine ⟨?_, fun p' => rfl, fun P P' => rfl, fun P P' => rfl⟩
  simp [TemporarySpan.containsSpan]

/- ### Claim C9: comparison with foreign objects is total -/

/-- C9: comparing a TemporarySpan with any object lacking the
`parent`/`char_start`/`char_end` attributes returns `False` for `==` and `True`
for `!=`; the `AttributeError` branch is caught, so neither comparison raises. -/
theorem C9_foreign_comparison (s : TemporarySpan) (o : Nat) :
    s.pyEq (.foreign o) = false ∧ s.pyNe (.foreign o) = true :=
  ⟨rfl, rfl⟩

/- ### Claim C3: materialization is idempotent and get-or-insert -/

/-- In a store holding no row with the given stable id, the lookup comes back
empty. -/
theorem lookupStableId_eq_none_of_count_zero (db : DBState) (sid : List Char)
    (h : countStableId db sid = 0) : lookupStableId db sid = none := by
  unfold countStableId at h
  rw [List.length_eq_zero, List.filter_eq_nil_iff] at h
  unfold lookupStableId
  rw [List.find?_eq_none.mpr h]
  rfl

/-- C3: if the candidate's id is already set, `load_id_or_insert` changes
nothing; with the id unset it adopts the surrogate id of an existing row with
the candidate's stable id, and inserts base and subtype rows (keyed by a fresh
surrogate id) only when no such row exists; hence running the sequence twice
with two distinct candidates producing the same stable id persists exactly one
base row and the second call returns the same surrogate id as the first. -/
theorem C3_materialization (c c1 c2 : TempCtx) (db : DBState) (i : Nat) :
    (c.id = some i → load_id_or_insert c db = (c, db)) ∧
    (c.id = none → lookupStableId db c.stable_id = some i →
      load_id_or_insert c db = ({ c with id := some i }, db)) ∧
    (c.id = none → lookupStableId db c.stable_id = none →
      load_id_or_insert c db =
        ({ c with id := some db.next_id },
         { contexts := db.contexts ++
             [{ id := db.next_id, type := c.table_name, stable_id := c.stable_id }]
           sub_rows := db.sub_rows ++ [(c.table_name, db.next_id, c.insert_args)]
           next_id := db.next_id + 1 })) ∧
    (c1.id = none → c2.id = none → c1.stable_id = c2.stable_id →
      countStableId db c1.stable_id = 0 →
      countStableId (load_id_or_insert c2 (load_id_or_insert c1 db).2).2 c1.stable_id = 1 ∧
      (load_id_or_insert c2 (load_id_or_insert c1 db).2).1.id =
        (load_id_or_insert c1 db).1.id) := by
  refine ⟨?_, ?_, ?_, ?_⟩
  · intro h
    simp [load_id_or_insert, h]
  · intro h hl
    simp [load_id_or_insert, h, hl]
  · intro h hl
    simp [load_id_or_insert, h, hl]
  · intro h1 h2 hsid hcount
    have hl1 : lookupStableId db c1.stable_id = none :=
      lookupStableId_eq_none_of_count_zero db c1.stable_id hcount
    have hfind1 : db.contexts.find? (fun r => r.stable_id == c1.stable_id) = none := by
      unfold lookupStableId at hl1
      exact Option.map_eq_none'.mp hl1
    have e1 : load_id_or_insert c1 db =
        ({ c1 with id := some db.next_id },
         { contexts := db.contexts ++
             [{ id := db.next_id, type := c1.table_name, stable_id := c1.stable_id }]
           sub_rows := db.sub_rows ++ [(c1.table_name, db.next_id, c1.insert_args)]
           next_id := db.next_id + 1 }) := by
      simp [load_id_or_insert, h1, hl1]
    rw [e1]
    have hl2 : lookupStableId
        { contexts := db.contexts ++
            [{ id := db.next_id, type := c1.table_name, stable_id := c1.stable_id }]
          sub_rows := db.sub_rows ++ [(c1.table_name, db.next_id, c1.insert_args)]
          next_id := db.next_id + 1 } c2.stable_id = some db.next_id := by
      unfold lookupStableId
      rw [← hsid, List.find?_append, hfind1]
      simp
    have e2 : ∀ dbx : DBState, lookupStableId dbx c2.stable_id = some db.next_id →
        load_id_or_insert c2 dbx = ({ c2 with id := some db.next_id }, dbx) := by
      intro dbx hx
      simp [load_id_or_insert, h2, hx]
    rw [e2 _ hl2]
    refine ⟨?_, rfl⟩
    unfold countStableId at hcount ⊢
    simp only [List.filter_append, List.length_append, hcount]
    simp [List.filter]

/- ### Claim C4: char_to_word_index -/

/-- The scan, started just past position `j`, returns `j` itself as soon as
every remaining offset lies strictly beyond the target. -/
theorem ctwiLoop_all_beyond (ci : Int) (post : List Int) (j : Int)
    (h : ∀ y ∈ post, ci < y) :
    ctwiLoop ci post (some j) (j + 1) = some j := by
  cases post with
  | nil => rfl
  | cons y rest =>
    have hy : ci < y := h y (by simp)
    have h1 : ¬ci = y := by omega
    simp only [ctwiLoop, if_neg h1, if_pos hy]
    congr 1
    omega

/-- The scan finds an exact match: offsets before the match are all below the
target, so the loop reaches the matching position and returns its index. -/
theorem ctwiLoop_exact (ci : Int) (post : List Int) :
    ∀ (pre : List Int) (acc : Option Int) (idx : Int),
      (∀ y ∈ pre, y < ci) →
      ctwiLoop ci (pre ++ ci :: post) acc idx = some (idx + pre.length) := by
  intro pre
  induction pre with
  | nil =>
    intro acc idx _
    simp [ctwiLoop]
  | cons z pre ih =>
    intro acc idx h
    have hz : z < ci := h z (by simp)
    have h1 : ¬ci = z := by omega
    have h2 : ¬ci < z := by omega
    simp only [List.cons_append, ctwiLoop, if_neg h1, if_neg h2, List.append_eq]
    rw [ih (some idx) (idx + 1) (fun y hy => h y (by simp [hy]))]
    congr 1
    push_cast [List.length_cons]
    ring

/-- The scan with no exact match: offsets up to position `pre.length` are below
the target and all later ones beyond it, so the loop returns that position. -/
theorem ctwiLoop_between (ci x : Int) (post : List Int)
    (hx : x < ci) (hpost : ∀ y ∈ post, ci < y) :
    ∀ (pre : List Int) (acc : Option Int) (idx : Int),
      (∀ y ∈ pre, y < ci) →
      ctwiLoop ci (pre ++ x :: post) acc idx = some (idx + pre.length) := by
  intro pre
  induction pre with
  | nil =>
    intro acc idx _
    have h1 : ¬ci = x := by omega
    have h2 : ¬ci < x := by omega
    simp only [List.nil_append, ctwiLoop, if_neg h1, if_neg h2]
    rw [ctwiLoop_all_beyond ci post idx hpost]
    simp
  | cons z pre ih =>
    intro acc idx h
    have hz : z < ci := h z (by simp)
    have h1 : ¬ci = z := by omega
    have h2 : ¬ci < z := by omega
    simp only [List.cons_append, ctwiLoop, if_neg h1, if_neg h2, List.append_eq]
    rw [ih (some idx) (idx + 1) (fun y hy => h y (by simp [hy]))]
    congr 1
    push_cast [List.length_cons]
    ring

/-- C4: on a parent with strictly increasing `char_offsets`, the scan returns
the index holding the target when an exact match exists; with no exact match it
returns the last index whose offset is below the target (the decomposition
`pre ++ x :: post` with `x < target < post` names that index as `pre.length`);
and a target before the first offset yields index `-1`, one below the first. -/
theorem C4_char_to_word_index (s : TemporarySpan) (ci : Int)
    (hsorted : List.Pairwise (fun a b => a < b) s.parent.char_offsets) :
    (∀ pre post, s.parent.char_offsets = pre ++ ci :: post →
      s.char_to_word_index ci = some pre.length) ∧
    (∀ pre x post, s.parent.char_offsets = pre ++ x :: post → x < ci →
      (∀ y ∈ post, ci < y) →
      s.char_to_word_index ci = some pre.length) ∧
    (∀ x rest, s.parent.char_offsets = x :: rest → ci < x →
      s.char_to_word_index ci = some (-1)) := by
  refine ⟨?_, ?_, ?_⟩
  · intro pre post hdec
    rw [hdec] at hsorted
    rw [List.pairwise_append] at hsorted
    unfold TemporarySpan.char_to_word_index
    rw [hdec, ctwiLoop_exact ci post pre none 0
      (fun y hy => hsorted.2.2 y hy ci (by simp))]
    simp
  · intro pre x post hdec hx hpost
    rw [hdec] at hsorted
    rw [List.pairwise_append] at hsorted
    unfold TemporarySpan.char_to_word_index
    rw [hdec, ctwiLoop_between ci x post hx hpost pre none 0
      (fun y hy => lt_trans (hsorted.2.2 y hy x (by simp)) hx)]
    simp
  · intro x rest hdec hx
    have h1 : ¬ci = x := by omega
    unfold TemporarySpan.char_to_word_index
    rw [hdec]
    simp only [ctwiLoop, if_neg h1, if_pos hx]
    norm_num

/-- Witness for C4: the spec's token-mapping example with
`char_offsets = [0, 4, 10]`: target 4 maps to index 1 (exact), 6 to index 1
(inside the second token), 0 to index 0 (exact). -/
theorem C4_witness :
    (TemporarySpan.init Pex 0 0).char_to_word_index 4 = some 1 ∧
    (TemporarySpan.init Pex 0 0).char_to_word_index 6 = some 1 ∧
    (TemporarySpan.init Pex 0 0).char_to_word_index 0 = some 0 := by
  refine ⟨?_, ?_, ?_⟩
  · have h := (C4_char_to_word_index (TemporarySpan.init Pex 0 0) 4 (by decide)).1
      [0] [10] (by decide)
    simpa using h
  · have h := (C4_char_to_word_index (TemporarySpan.init Pex 0 0) 6 (by decide)).2.1
      [0] 4 [10] (by decide) (by decide) (by decide)
    simpa using h
  · have h := (C4_char_to_word_index (TemporarySpan.init Pex 0 0) 0 (by decide)).1
      [] [4, 10] (by decide)
    simpa using h

/- ### Decimal round trip: the digits written by `intStr` parse back -/

/-- Value of a decimal digit character. -/
theorem digitChar_toNat (d : Nat) (h : d < 10) : (digitChar d).toNat = 48 + d := by
  interval_cases d <;> decide

/-- The digit writer's accumulator is simply appended to its output. -/
theorem natToDigitsAux_acc (fuel : Nat) :
    ∀ (n : Nat) (acc : List Char), n < fuel →
      natToDigitsAux fuel n acc = natToDigitsAux fuel n [] ++ acc := by
  induction fuel with
  | zero => intro n acc h; omega
  | succ fuel ih =>
    intro n acc h
    by_cases h10 : n < 10
    · simp [natToDigitsAux, h10]
    · have hdiv : n / 10 < n := Nat.div_lt_self (by omega) (by omega)
      have hf : n / 10 < fuel := by omega
      simp only [natToDigitsAux, if_neg h10]
      rw [ih (n / 10) (digitChar (n % 10) :: acc) hf,
          ih (n / 10) [digitChar (n % 10)] hf]
      simp

/-- The digit writer does not depend on the fuel, as long as it is sufficient. -/
theorem natToDigitsAux_fuel (f1 : Nat) :
    ∀ (f2 n : Nat) (acc : List Char), n < f1 → n < f2 →
      natToDigitsAux f1 n acc = natToDigitsAux f2 n acc := by
  induction f1 with
  | zero => intro f2 n acc h; omega
  | succ f1 ih =>
    intro f2 n acc h1 h2
    cases f2 with
    | zero => omega
    | succ f2 =>
      by_cases h10 : n < 10
      · simp [natToDigitsAux, h10]
      · have hdiv : n / 10 < n := Nat.div_lt_self (by omega) (by omega)
        simp only [natToDigitsAux, if_neg h10]
        exact ih f2 (n / 10) _ (by omega) (by omega)

/-- Recurrence for the digit string of a large number. -/
theorem natToDigits_ge (n : Nat) (h : ¬n < 10) :
    natToDigits n = natToDigits (n / 10) ++ [digitChar (n % 10)] := by
  have hdiv : n / 10 < n := Nat.div_lt_self (by omega) (by omega)
  unfold natToDigits
  rw [show natToDigitsAux (n + 1) n [] = natToDigitsAux n (n / 10) [digitChar (n % 10)] by
        simp [natToDigitsAux, h]]
  rw [natToDigitsAux_acc n (n / 10) [digitChar (n % 10)] (by omega)]
  rw [natToDigitsAux_fuel n (n / 10 + 1) (n / 10) [] (by omega) (by omega)]

/-- The decimal writer emits a non-empty digit string whose value is the
original number. -/
theorem natToDigits_spec (n : Nat) :
    natToDigits n ≠ [] ∧ isDigits (natToDigits n) = true ∧
    digitsVal (natToDigits n) = n := by
  induction n using Nat.strong_induction_on with
  | _ n ih =>
    by_cases h10 : n < 10
    · have he : natToDigits n = [digitChar n] := by
        simp [natToDigits, natToDigitsAux, h10]
      rw [he]
      refine ⟨by simp, ?_, ?_⟩
      · simp [isDigits, isDigitChar, digitChar_toNat n h10]
        omega
      · simp [digitsVal, digitChar_toNat n h10]
    · have hdiv : n / 10 < n := Nat.div_lt_self (by omega) (by omega)
      obtain ⟨hne, hdig, hval⟩ := ih (n / 10) hdiv
      rw [natToDigits_ge n h10]
      refine ⟨by simp, ?_, ?_⟩
      · simp [isDigits] at hdig ⊢
        refine ⟨hdig, ?_⟩
        simp [isDigitChar, digitChar_toNat (n % 10) (by omega)]
        omega
      · unfold digitsVal at hval ⊢
        rw [List.foldl_append, hval]
        simp [digitChar_toNat (n % 10) (by omega)]
        omega

/-- Python `int` parses back what `"%s"` printed: the decimal round trip. -/
theorem parsePyInt_intStr (n : Int) : parsePyInt (intStr n) = some n := by
  by_cases hn : n < 0
  · obtain ⟨hne, hdig, hval⟩ := natToDigits_spec n.natAbs
    have he : intStr n = '-' :: natToDigits n.natAbs := by simp [intStr, hn]
    rw [he]
    show (if ('-' : Char) = '-' then
        if natToDigits n.natAbs ≠ [] ∧ isDigits (natToDigits n.natAbs) = true then
          some (-(digitsVal (natToDigits n.natAbs) : Int)) else none
      else if ('-' : Char) = '+' then
        if natToDigits n.natAbs ≠ [] ∧ isDigits (natToDigits n.natAbs) = true then
          some ((digitsVal (natToDigits n.natAbs) : Int)) else none
      else if isDigits ('-' :: natToDigits n.natAbs) = true then
        some ((digitsVal ('-' :: natToDigits n.natAbs) : Int)) else none) = some n
    rw [if_pos rfl, if_pos ⟨hne, hdig⟩, hval]
    congr 1
    omega
  · obtain ⟨hne, hdig, hval⟩ := natToDigits_spec n.toNat
    have he : intStr n = natToDigits n.toNat := by simp [intStr, hn]
    obtain ⟨c, rest, hc⟩ := List.exists_cons_of_ne_nil hne
    have hcdig : isDigitChar c = true := by
      rw [hc] at hdig
      simp [isDigits] at hdig
      exact hdig.1
    have hc1 : ¬c = '-' := by
      intro hh
      rw [hh] at hcdig
      simp [isDigitChar] at hcdig
    have hc2 : ¬c = '+' := by
      intro hh
      rw [hh] at hcdig
      simp [isDigitChar] at hcdig
    rw [he, hc]
    simp only [parsePyInt, if_neg hc1, if_neg hc2]
    rw [if_pos (by rw [← hc]; exact hdig), ← hc, hval]
    congr 1
    omega

/-- The characters `intStr` writes are signs and digits, never a colon. -/
theorem noColon_intStr (n : Int) : noColon (intStr n) = true := by
  have hdig : ∀ m : Nat, noColon (natToDigits m) = true := by
    intro m
    obtain ⟨-, hdig, -⟩ := natToDigits_spec m
    simp only [noColon, List.all_eq_true]
    intro c hc
    simp only [isDigits, List.all_eq_true] at hdig
    have := hdig c hc
    simp only [isDigitChar, Bool.and_eq_true, decide_eq_true_eq] at this
    simp only [Bool.not_eq_true', beq_eq_false_iff_ne, ne_eq]
    intro hcol
    rw [hcol] at this
    exact absurd this.2 (by decide)
  by_cases hn : n < 0
  · simp only [intStr, if_pos hn, noColon, List.all_cons, Bool.and_eq_true]
    exact ⟨by decide, hdig n.natAbs⟩
  · simp only [intStr, if_neg hn]
    exact hdig n.toNat

/-- The string `intStr` writes is never empty. -/
theorem intStr_ne_nil (n : Int) : intStr n ≠ [] := by
  by_cases hn : n < 0
  · simp [intStr, hn]
  · simp only [intStr, if_neg hn]
    exact (natToDigits_spec n.toNat).1

/- ### Structure of the colon splits -/

/-- A cons is colon-free iff its head is not a colon and its tail is colon-free. -/
theorem noColon_cons {c : Char} {l : List Char} :
    noColon (c :: l) = true ↔ (¬c = ':' ∧ noColon l = true) := by
  simp [noColon]

/-- The double-colon-freedom of a list passes to its tail. -/
theorem noDD_tail (c : Char) (l : List Char) (h : noDD (c :: l) = true) : noDD l = true := by
  cases l with
  | nil => rfl
  | cons d rest =>
    simp only [noDD, Bool.and_eq_true] at h
    exact h.2

/-- The leading pair of a double-colon-free list is not a double colon. -/
theorem noDD_head_cons (c d : Char) (rest : List Char) (h : noDD (c :: d :: rest) = true) :
    (c == ':' && d == ':') = false := by
  simp only [noDD, Bool.and_eq_true, Bool.not_eq_true'] at h
  exact h.1

/-- Extending a double-colon-free list on the left stays double-colon-free as
long as the new boundary pair is not a double colon. -/
theorem noDD_cons_of (c : Char) (l : List Char) (hl : noDD l = true)
    (hc : ∀ d, l.head? = some d → ¬(c = ':' ∧ d = ':')) : noDD (c :: l) = true := by
  cases l with
  | nil => rfl
  | cons d rest =>
    simp only [noDD, Bool.and_eq_true, Bool.not_eq_true']
    refine ⟨?_, hl⟩
    have hcd := hc d rfl
    rcases Decidable.em (c = ':') with hcc | hcc
    · have hd : ¬d = ':' := fun hd => hcd ⟨hcc, hd⟩
      simp [hd]
    · simp [hcc]

/-- The head of a non-empty colon-free list is not a colon. -/
theorem noColon_head (l : List Char) (h : noColon l = true) :
    ∀ d, l.head? = some d → ¬d = ':' := by
  intro d hd
  cases l with
  | nil => simp at hd
  | cons c rest =>
    simp only [List.head?_cons, Option.some.injEq] at hd
    subst hd
    exact (noColon_cons.mp h).1

/-- A colon-free prefix glued onto a double-colon-free list yields a
double-colon-free list. -/
theorem noDD_append_noColon (a : List Char) :
    ∀ l, noColon a = true → noDD l = true → noDD (a ++ l) = true := by
  induction a with
  | nil =>
    intro l _ hl
    simpa using hl
  | cons c a ih =>
    intro l ha hl
    obtain ⟨hc, ha'⟩ := noColon_cons.mp ha
    rw [List.cons_append]
    apply noDD_cons_of
    · exact ih l ha' hl
    · intro d _ hcd
      exact hc hcd.1

/-- A colon-free list is in particular double-colon-free. -/
theorem noColon_noDD (l : List Char) (h : noColon l = true) : noDD l = true := by
  have := noDD_append_noColon l [] h rfl
  simpa using this

/-- The `"::"` split always yields at least one piece. -/
theorem pySplitDC_ne_nil (s : List Char) : pySplitDC s ≠ [] := by
  cases s with
  | nil => simp [pySplitDC]
  | cons c t =>
    cases t with
    | nil => simp [pySplitDC]
    | cons d rest =>
      simp only [pySplitDC]
      split
      · simp
      · split <;> simp

/-- The `':'` split always yields at least one piece. -/
theorem pySplitC_ne_nil (sep : Char) (s : List Char) : pySplitC sep s ≠ [] := by
  cases s with
  | nil => simp [pySplitC]
  | cons c rest =>
    simp only [pySplitC]
    split
    · simp
    · split <;> simp

/-- Splitting a double-colon-free string on `"::"` returns it whole. -/
theorem pySplitDC_of_noDD : (l : List Char) → noDD l = true → pySplitDC l = [l]
  | [], _ => rfl
  | [_], _ => rfl
  | c :: d :: rest, h => by
    have hcd := noDD_head_cons c d rest h
    have ih := pySplitDC_of_noDD (d :: rest) (noDD_tail c _ h)
    simp [pySplitDC, hcd, ih]

/-- Splitting `a ++ "::" ++ b` on `"::"` peels off `a` exactly when gluing the
first separator colon onto `a` creates no earlier double colon. -/
theorem pySplitDC_append : (a : List Char) → ∀ b, noDD (a ++ [':']) = true →
    pySplitDC (a ++ ':' :: ':' :: b) = a :: pySplitDC b
  | [], b, _ => by simp [pySplitDC]
  | [c], b, h => by
    have hc : (c == ':' && (':' : Char) == ':') = false := noDD_head_cons c ':' [] h
    have hc2 : (c == ':') = false := by simpa using hc
    simp [pySplitDC, hc2]
  | c :: d :: a, b, h => by
    have h' : noDD (c :: d :: (a ++ [':'])) = true := by simpa using h
    have hcd : (c == ':' && d == ':') = false := noDD_head_cons c d (a ++ [':']) h'
    have ih := pySplitDC_append (d :: a) b (by simpa using noDD_tail c _ h')
    simp only [List.cons_append] at ih ⊢
    simp [pySplitDC, hcd, ih]

/-- A piece of the `"::"` split that starts at a non-colon character keeps that
character as its head. -/
theorem pySplitDC_head_cons (d : Char) (rest p : List Char) (ps : List (List Char))
    (hd : ¬d = ':') (h : pySplitDC (d :: rest) = p :: ps) : ∃ q, p = d :: q := by
  cases rest with
  | nil =>
    simp only [pySplitDC, List.cons.injEq] at h
    exact ⟨[], h.1.symm⟩
  | cons e rest =>
    have hde : (d == ':' && e == ':') = false := by simp [hd]
    simp only [pySplitDC, hde, Bool.false_eq_true, if_false] at h
    cases hq : pySplitDC (e :: rest) with
    | nil => exact absurd hq (pySplitDC_ne_nil (e :: rest))
    | cons q qs =>
      rw [hq] at h
      simp only [List.cons.injEq] at h
      exact ⟨q, h.1.symm⟩

/-- When the `"::"` split produces at least two pieces, gluing a colon onto the
first piece creates no double colon (the split consumed the leftmost `"::"`). -/
theorem pySplitDC_first : (s : List Char) → ∀ (a : List Char) (l : List (List Char)),
    pySplitDC s = a :: l → l ≠ [] → noDD (a ++ [':']) = true
  | [], a, l, h, hl => by
    injection h with h1 h2
    exact absurd h2.symm hl
  | [c], a, l, h, hl => by
    injection h with h1 h2
    exact absurd h2.symm hl
  | c :: d :: rest, a, l, h, hl => by
    by_cases hcd : (c == ':' && d == ':') = true
    · have h' : [] :: pySplitDC rest = a :: l := by
        rw [← h]
        simp [pySplitDC, hcd]
      injection h' with h1 h2
      rw [← h1]
      decide
    · have hcd' : (c == ':' && d == ':') = false := by simpa using hcd
      have h' : (match pySplitDC (d :: rest) with
          | [] => [[c]]
          | p :: ps => (c :: p) :: ps) = a :: l := by
        rw [← h]
        simp [pySplitDC, hcd']
      cases hq : pySplitDC (d :: rest) with
      | nil => exact absurd hq (pySplitDC_ne_nil (d :: rest))
      | cons p ps =>
        rw [hq] at h'
        injection h' with h1 h2
        have hps : ps ≠ [] := by
          rw [h2]
          exact hl
        have ihp := pySplitDC_first (d :: rest) p ps hq hps
        rw [← h1, List.cons_append]
        by_cases hc : c = ':'
        · have hd : ¬d = ':' := by
            intro hdd
            rw [hc, hdd] at hcd'
            simp at hcd'
          obtain ⟨q, hq2⟩ := pySplitDC_head_cons d rest p ps hd hq
          apply noDD_cons_of
          · exact ihp
          · intro e he hce
            rw [hq2] at he
            simp only [List.cons_append, List.head?_cons, Option.some.injEq] at he
            subst he
            exact hd hce.2
        · apply noDD_cons_of
          · exact ihp
          · intro e he hce
            exact hc hce.1

/-- Splitting a colon-free string on `':'` returns it whole. -/
theorem pySplitC_of_noColon : (a : List Char) → noColon a = true → pySplitC ':' a = [a]
  | [], _ => rfl
  | c :: a, h => by
    obtain ⟨hc, ha⟩ := noColon_cons.mp h
    have ih := pySplitC_of_noColon a ha
    have hc' : (c == ':') = false := by simpa using hc
    simp [pySplitC, hc', ih]

/-- Splitting `a ++ ":" ++ l` on `':'` peels off the colon-free piece `a`. -/
theorem pySplitC_append : (a : List Char) → ∀ l, noColon a = true →
    pySplitC ':' (a ++ ':' :: l) = a :: pySplitC ':' l
  | [], l, _ => by simp [pySplitC]
  | c :: a, l, h => by
    obtain ⟨hc, ha⟩ := noColon_cons.mp h
    have ih := pySplitC_append a l ha
    have hc' : (c == ':') = false := by simpa using hc
    simp [pySplitC, hc', ih]

/- ### Claims C1 and C2: the stable-id codec -/

/-- Inversion of a successful `split_stable_id`: the two-level split succeeded
and the integer fields parsed. -/
theorem split_stable_id_inv (sid R t : List Char) (A B : Int)
    (h : split_stable_id sid = some (R, t, A, B)) :
    ∃ rest d1 d2, pySplitDC sid = [R, rest] ∧ pySplitC ':' rest = [t, d1, d2] ∧
      parsePyInt d1 = some A ∧ parsePyInt d2 = some B := by
  unfold split_stable_id at h
  split at h
  · rename_i a rest heq1
    split at h
    · rename_i k' d1 d2 heq2
      split at h
      · rename_i n1 n2 heq3 heq4
        simp only [Option.some.injEq, Prod.mk.injEq] at h
        obtain ⟨rfl, rfl, rfl, rfl⟩ := h
        exact ⟨rest, d1, d2, heq1, heq2, heq3, heq4⟩
      · simp at h
    · simp at h
  · simp at h

/-- C1 (amended): for every parent whose `stable_id` splits as
`(R, _, A, _)`, every kind string `k` containing no `':'` character (all kinds
of the closed variant set qualify), and all integers `0 ≤ s ≤ e`, constructing
a child stable id and splitting it again returns `(R, k, A + s, A + e)`. -/
theorem C1_roundtrip (pid R t : List Char) (A B : Int) (k : List Char) (s e : Int)
    (hparent : split_stable_id pid = some (R, t, A, B))
    (hk : noColon k = true) (_hs : 0 ≤ s) (_hse : s ≤ e) :
    construct_stable_id pid k s e =
      some (R ++ (':' :: ':' :: (k ++ (':' :: (intStr (A + s) ++ (':' :: intStr (A + e))))))) ∧
    split_stable_id
        (R ++ (':' :: ':' :: (k ++ (':' :: (intStr (A + s) ++ (':' :: intStr (A + e))))))) =
      some (R, k, A + s, A + e) := by
  constructor
  · unfold construct_stable_id
    rw [hparent]
  · obtain ⟨rest, d1, d2, heq1, heq2, heq3, heq4⟩ := split_stable_id_inv pid R t A B hparent
    have hR : noDD (R ++ [':']) = true := pySplitDC_first pid R [rest] heq1 (by simp)
    have hni1 : noColon (intStr (A + s)) = true := noColon_intStr _
    have hni2 : noColon (intStr (A + e)) = true := noColon_intStr _
    have hne1 : intStr (A + s) ≠ [] := intStr_ne_nil _
    have hb2 : noDD (':' :: intStr (A + e)) = true := by
      apply noDD_cons_of ':' _ (noColon_noDD _ hni2)
      intro d hd hcd
      exact noColon_head _ hni2 d hd hcd.2
    have hb3 : noDD (intStr (A + s) ++ ':' :: intStr (A + e)) = true :=
      noDD_append_noColon _ _ hni1 hb2
    have hb4 : noDD (':' :: (intStr (A + s) ++ ':' :: intStr (A + e))) = true := by
      apply noDD_cons_of ':' _ hb3
      intro d hd hcd
      obtain ⟨c1, i1', hc1⟩ := List.exists_cons_of_ne_nil hne1
      rw [hc1] at hd
      simp only [List.cons_append, List.head?_cons, Option.some.injEq] at hd
      exact noColon_head _ hni1 d (by rw [hc1, List.head?_cons, hd]) hcd.2
    have hbody : noDD (k ++ (':' :: (intStr (A + s) ++ ':' :: intStr (A + e)))) = true :=
      noDD_append_noColon k _ hk hb4
    have hs1 : pySplitDC
        (R ++ ':' :: ':' :: (k ++ (':' :: (intStr (A + s) ++ ':' :: intStr (A + e))))) =
        [R, k ++ (':' :: (intStr (A + s) ++ ':' :: intStr (A + e)))] := by
      rw [pySplitDC_append R _ hR, pySplitDC_of_noDD _ hbody]
    have hs2 : pySplitC ':' (k ++ (':' :: (intStr (A + s) ++ ':' :: intStr (A + e)))) =
        [k, intStr (A + s), intStr (A + e)] := by
      rw [pySplitC_append k _ hk, pySplitC_append _ _ hni1, pySplitC_of_noColon _ hni2]
    unfold split_stable_id
    rw [hs1]
    simp [hs2, parsePyInt_intStr]

/-- Witness for C1 (amended): a concrete parent `"doc1::document:5:9"`
(root `"doc1"`, absolute start `5`), kind `"span"`, relative offsets `3 ≤ 7`:
the round trip yields `("doc1", "span", 8, 12)`. -/
theorem C1_witness :
    construct_stable_id (strL "doc1::document:5:9") (strL "span") 3 7 =
      some (strL "doc1::span:8:12") ∧
    split_stable_id (strL "doc1::span:8:12") =
      some (strL "doc1", strL "span", 8, 12) := by
  have h := C1_roundtrip (strL "doc1::document:5:9") (strL "doc1") (strL "document") 5 9
    (strL "span") 3 7 (by decide) (by decide) (by decide) (by decide)
  constructor
  · rw [h.1]
    decide
  · rw [show strL "doc1::span:8:12" =
        strL "doc1" ++ (':' :: ':' :: (strL "span" ++ (':' ::
          (intStr (5 + 3) ++ (':' :: intStr (5 + 7)))))) from by decide]
    rw [h.2]
    decide

/-- Counterexample to C1 as stated: the claim quantifies over any kind string
`k`, but for the well-formed parent `"doc1::document:0:0"` (root `"doc1"`,
absolute start `0`), kind `k = ":"`, and offsets `s = e = 0`, the constructed
id `"doc1::::0:0"` does not split back at all (so the round trip does not
return `(R, k, 0, 0)`). -/
theorem C1_counterexample :
    split_stable_id (strL "doc1::document:0:0") =
      some (strL "doc1", strL "document", 0, 0) ∧
    construct_stable_id (strL "doc1::document:0:0") (strL ":") 0 0 =
      some (strL "doc1::::0:0") ∧
    split_stable_id (strL "doc1::::0:0") = none := by
  refine ⟨by decide, by decide, by decide⟩

/-- C2: `split_stable_id` succeeds exactly on strings whose `"::"` split has
exactly two pieces and whose remainder splits on `':'` into exactly three
fields with the last two parsing as integers; in particular `"noseparator"`,
`"a::b"` and `"a::b:c"` are rejected as malformed while `"root::span:3:7"`
splits into `("root", "span", 3, 7)`. -/
theorem C2_split_malformed :
    (∀ s0 : List Char, (split_stable_id s0).isSome = true ↔
      ∃ a b, pySplitDC s0 = [a, b] ∧
        ∃ k d1 d2, pySplitC ':' b = [k, d1, d2] ∧
          (parsePyInt d1).isSome = true ∧ (parsePyInt d2).isSome = true) ∧
    split_stable_id (strL "noseparator") = none ∧
    split_stable_id (strL "a::b") = none ∧
    split_stable_id (strL "a::b:c") = none ∧
    split_stable_id (strL "root::span:3:7") = some (strL "root", strL "span", 3, 7) := by
  refine ⟨?_, by decide, by decide, by decide, by decide⟩
  intro s0
  constructor
  · intro h
    obtain ⟨R0, t0, A0, B0, hsome⟩ :
        ∃ R t A B, split_stable_id s0 = some (R, t, A, B) := by
      cases hx : split_stable_id s0 with
      | none => rw [hx] at h; simp at h
      | some v =>
        obtain ⟨R0, t0, A0, B0⟩ := v
        exact ⟨R0, t0, A0, B0, rfl⟩
    obtain ⟨rest, d1, d2, h1, h2, h3, h4⟩ := split_stable_id_inv s0 R0 t0 A0 B0 hsome
    exact ⟨R0, rest, h1, t0, d1, d2, h2, by simp [h3], by simp [h4]⟩
  · rintro ⟨a, b, h1, k, d1, d2, h2, hd1, hd2⟩
    obtain ⟨n1, hn1⟩ := Option.isSome_iff_exists.mp hd1
    obtain ⟨n2, hn2⟩ := Option.isSome_iff_exists.mp hd2
    unfold split_stable_id
    rw [h1]
    simp [h2, hn1, hn2]

/- ### Claim C8: attribute-span asymmetry -/

/-- Python slicing with in-range non-negative bounds is drop-then-take. -/
theorem pySliceList_of_nonneg {α : Type} (l : List α) (i j : Int)
    (h0 : 0 ≤ i) (hij : i ≤ j) (hj : j ≤ (l.length : Int)) :
    pySliceList l (some i) (some j) = (l.drop i.toNat).take (j - i).toNat := by
  unfold pySliceList pySliceBound
  have hi' : ¬i < 0 := by omega
  have hj' : ¬j < 0 := by omega
  have hii : i.toNat ≤ l.length := by omega
  have hjj : j.toNat ≤ l.length := by omega
  simp only [if_neg hi', if_neg hj', Nat.min_eq_left hii, Nat.min_eq_left hjj]
  congr 1
  omega

/-- C8: `get_attrib_span` on the `words` attribute returns the verbatim text
substring from `char_start` to `char_end` inclusive, independent of the
separator; on any other known attribute it returns the token slice over
`[word_start, word_end]` inclusive joined with the separator. -/
theorem C8_attrib_span (s : TemporarySpan) (a : String) (sep : List Char)
    (lst : List (List Char)) (ws we : Int) :
    ((0 : Int) ≤ s.char_start → s.char_start ≤ s.char_end + 1 →
      s.char_end + 1 ≤ (s.parent.text.length : Int) →
      s.get_attrib_span "words" sep =
        some ((s.parent.text.drop s.char_start.toNat).take
          (s.char_end + 1 - s.char_start).toNat)) ∧
    (∀ sep' : List Char, s.get_attrib_span "words" sep = s.get_attrib_span "words" sep') ∧
    (a ≠ "words" → parentAttr s.parent a = some lst →
      s.get_word_start = some ws → s.get_word_end = some we →
      0 ≤ ws → ws ≤ we + 1 → we + 1 ≤ (lst.length : Int) →
      s.get_attrib_span a sep =
        some (List.intercalate sep ((lst.drop ws.toNat).take (we + 1 - ws).toNat))) := by
  refine ⟨?_, fun sep' => rfl, ?_⟩
  · intro h0 h1 h2
    unfold TemporarySpan.get_attrib_span
    rw [if_pos rfl, pySliceList_of_nonneg s.parent.text s.char_start (s.char_end + 1) h0 h1 h2]
  · intro ha hattr hws hwe h0 h1 h2
    unfold TemporarySpan.get_attrib_span
    rw [if_neg ha]
    unfold TemporarySpan.get_attrib_tokens
    rw [hattr, hws, hwe]
    simp only [Option.map_some']
    rw [pySliceList_of_nonneg lst ws (we + 1) h0 h1 h2]

/-- Witness for C8: the span covering `"Mr. Smith"` (chars 0 through 8 of the
example parent) returns the verbatim substring with its internal punctuation
for `words`, and the separator-joined lemma tokens otherwise. -/
theorem C8_witness :
    (TemporarySpan.init Pex 0 8).get_attrib_span "words" (strL " ") =
      some (strL "Mr. Smith") ∧
    (TemporarySpan.init Pex 0 8).get_attrib_span "lemmas" (strL " ") =
      some (strL "mr. smith") := by
  have h := C8_attrib_span (TemporarySpan.init Pex 0 8) "lemmas" (strL " ")
    [strL "mr.", strL "smith", strL "run."] 0 1
  constructor
  · rw [h.1 (by decide) (by decide) (by decide)]
    decide
  · rw [h.2.2 (by decide) (by decide) (by decide) (by decide) (by decide) (by decide) (by decide)]
    decide

/-- Witness for C3: starting from an empty store, materializing two distinct
candidates that share the stable id `"doc::span:0:4"` persists exactly one base
row and the second call adopts the first call's surrogate id. -/
theorem C3_witness :
    countStableId
      ((load_id_or_insert
          { id := none, stable_id := strL "doc::span:0:4", table_name := "span",
            insert_args := [("parent_id", 8)] }
          ((load_id_or_insert
              { id := none, stable_id := strL "doc::span:0:4", table_name := "span",
                insert_args := [("parent_id", 7)] }
              { contexts := [], sub_rows := [], next_id := 1 }).2)).2)
      (strL "doc::span:0:4") = 1 ∧
    ((load_id_or_insert
        { id := none, stable_id := strL "doc::span:0:4", table_name := "span",
          insert_args := [("parent_id", 8)] }
        ((load_id_or_insert
            { id := none, stable_id := strL "doc::span:0:4", table_name := "span",
              insert_args := [("parent_id", 7)] }
            { contexts := [], sub_rows := [], next_id := 1 }).2)).1).id =
      ((load_id_or_insert
          { id := none, stable_id := strL "doc::span:0:4", table_name := "span",
            insert_args := [("parent_id", 7)] }
          { contexts := [], sub_rows := [], next_id := 1 }).1).id := by
  exact (C3_materialization
    { id := none, stable_id := strL "doc::span:0:4", table_name := "span",
      insert_args := [("parent_id", 7)] }
    { id := none, stable_id := strL "doc::span:0:4", table_name := "span",
      insert_args := [("parent_id", 7)] }
    { id := none, stable_id := strL "doc::span:0:4", table_name := "span",
      insert_args := [("parent_id", 8)] }
    { contexts := [], sub_rows := [], next_id := 1 } 0).2.2.2 rfl rfl rfl (by decide)
